import Mathlib

/-!
Verification of `projects/mapalign/mapalign_multires/model_utils.py`.

The source is TensorFlow graph-construction code: every function consumes
symbolic tensor handles and produces new ones, with static shapes of the form
`(batch, height, width, channels)`.  We embed tensor handles as a symbolic
expression tree `Tensor` whose nodes are the framework operations the source
uses, together with a static-shape function `shape` implementing the
framework's published shape rules (VALID convolution shrinks each spatial
extent by `kernel - 1`, SAME preserves it, 2x2/stride-2 max-pooling halves it
rounding down, bilinear resize and crop-or-pad set it exactly, channel
concatenation adds channel counts, stacking along axis 1 inserts a new axis).

The builders `conv_conv_pool`, `upsample_crop_concat`, `upsample_crop`,
`build_input_branch`, `build_common_part`, `build_output_branch`,
`build_pred_branches` and `build_double_unet` are translated from the source
file.  The single `assert` in `build_common_part` and the failure of
`tf.stack` on an empty list are modelled with `Except BuildError`.
-/

namespace ModelUtils

/-- Padding mode of a convolution (`tf.layers.conv2d` / `complete_conv2d`). -/
inductive Padding where
  | valid
  | same
deriving DecidableEq

/-- The activation functions the source passes to convolution layers. -/
inductive Act where
  | elu
  | relu
  | tanh
  | ident
deriving DecidableEq

/-- Symbolic tensor handle: the graph nodes built by `model_utils.py`.
`stack1` is `tf.stack(_, axis=1)`; since `tf.stack` requires at least one
tensor it carries a head and a tail. `concat2` is `tf.concat` of exactly two
tensors along the channel axis, the only arity the source uses. -/
inductive Tensor where
  | input (name : String) (dims : List Nat)
  | placeholder (name : String)
  | conv2d (t : Tensor) (filters kernel : Nat) (padding : Padding) (act : Act)
  | maxPool2x2 (t : Tensor)
  | resizeBilinear (t : Tensor) (h w : Nat)
  | cropOrPad (t : Tensor) (h w : Nat)
  | concat2 (a b : Tensor)
  | stack1 (head : Tensor) (tail : List Tensor)
  | sigmoid (t : Tensor)

/-- Shape of a stacked tensor (axis 1) from the head's shape and the number
of stacked tensors. -/
def stackAxis1 (headShape : List Nat) (len : Nat) : List Nat :=
  match headShape with
  | [n, h, w, c] => [n, len, h, w, c]
  | s => s

/-- Static shape `(batch, height, width, channels)` of a tensor handle,
following the framework's shape-inference rules.  Ill-formed (non-4-D)
operands propagate unchanged; every use in the source is 4-D. -/
def shape : Tensor → List Nat
  | .input _ dims => dims
  | .placeholder _ => []
  | .conv2d t f k pad _ =>
    match shape t with
    | [n, h, w, _] =>
      match pad with
      | .valid => [n, h - (k - 1), w - (k - 1), f]
      | .same => [n, h, w, f]
    | s => s
  | .maxPool2x2 t =>
    match shape t with
    | [n, h, w, c] => [n, h / 2, w / 2, c]
    | s => s
  | .resizeBilinear t h w =>
    match shape t with
    | [n, _, _, c] => [n, h, w, c]
    | s => s
  | .cropOrPad t h w =>
    match shape t with
    | [n, _, _, c] => [n, h, w, c]
    | s => s
  | .concat2 a b =>
    match shape a with
    | [n, h, w, ca] => [n, h, w, ca + (shape b).getD 3 0]
    | s => s
  | .stack1 head tail => stackAxis1 (shape head) (tail.length + 1)
  | .sigmoid t => shape t

/-- Default tensor used where Python would dereference `None` (never reached
on the source's control paths). -/
def undefinedTensor : Tensor := .input "undefined" []

/-- Error aborting graph construction: the explicit `assert` in
`build_common_part`, or an implicit framework shape error. -/
inductive BuildError where
  | shapeMismatch (msg : String)
  | frameworkShapeError (msg : String)
deriving DecidableEq

/-- Modelled from the spec: `tf_utils.complete_conv2d` (file `utils/tf_utils.py`
of this repository, not included in the excerpt) applies one `k`×`k`
convolution producing `filters` output channels, followed by normalization and
activation; with `padding=VALID` a 3×3 convolution shrinks each spatial extent
by 2 and with `SAME` it preserves it (spec §4.1, §4.2).  Normalization and the
bias/weight-decay bookkeeping do not affect the constructed shape. -/
def complete_conv2d (net : Tensor) (filters kernel : Nat) (padding : Padding)
    (act : Act) : Tensor :=
  .conv2d net filters kernel padding act

/-- `conv_conv_pool` (model_utils.py lines 23-51): one convolution per entry
of `n_filters`, then optionally a 2x2/stride-2 max-pool.  Returns
`(net, pool)`, with `pool = none` when pooling is disabled. -/
def conv_conv_pool (input_ : Tensor) (n_filters : List Nat)
    (pool : Bool := true) (activation : Act := .elu) : Tensor × Option Tensor :=
  let net := n_filters.foldl
    (fun net F => complete_conv2d net F 3 .valid activation) input_
  if pool = false then
    (net, none)
  else
    (net, some (.maxPool2x2 net))

/-- `upsample_crop_concat` (lines 54-82): bilinear-upsample `to_upsample` by
`size`, project its channels to `input_to_crop`'s channel count with a SAME
3×3 convolution, crop-or-pad `input_to_crop` to the upsampled resolution, and
concatenate the two along channels. -/
def upsample_crop_concat (to_upsample input_to_crop : Tensor)
    (size : Nat × Nat := (2, 2)) : Tensor :=
  let H := (shape to_upsample).getD 1 0
  let W := (shape to_upsample).getD 2 0
  let target_C := (shape input_to_crop).getD 3 0
  let target_H := H * size.1
  let target_W := W * size.2
  let upsample := Tensor.resizeBilinear to_upsample target_H target_W
  let upsample := complete_conv2d upsample target_C 3 .same .relu
  let crop := Tensor.cropOrPad input_to_crop target_H target_W
  .concat2 upsample crop

/-- `upsample_crop` (lines 85-104): bilinear-upsample by `factor`, then
crop-or-pad to `resolution`. -/
def upsample_crop (input : Tensor) (resolution : Nat × Nat)
    (factor : Nat × Nat := (2, 2)) : Tensor :=
  let up_h := (shape input).getD 1 0 * factor.1
  let up_w := (shape input).getD 2 0 * factor.2
  let input_upsampled := Tensor.resizeBilinear input up_h up_w
  .cropOrPad input_upsampled resolution.1 resolution.2

/-- Level `res_level_index` of `build_input_branch`'s loop (lines 112-135).
Each loop iteration reads only the previous iteration's pool, so the loop
denotes this recurrence; the branch structure mirrors the source's
`if res_level_index == 0 / elif < res_levels - 1 / elif == res_levels - 1 /
else` chain (the final arm prints a warning and appends `(None, None)` in the
source; it is unreachable for indices below `res_levels`). -/
def inputBranchLevel (input : Tensor) (feature_base_count res_levels : Nat) :
    Nat → Tensor × Option Tensor
  | 0 =>
    let feature_count := feature_base_count * 2 ^ 0
    conv_conv_pool input [feature_count, feature_count]
  | i + 1 =>
    let feature_count := feature_base_count * 2 ^ (i + 1)
    let level_input :=
      ((inputBranchLevel input feature_base_count res_levels i).2).getD
        undefinedTensor
    if i + 1 < res_levels - 1 then
      conv_conv_pool level_input [feature_count, feature_count]
    else if i + 1 = res_levels - 1 then
      conv_conv_pool level_input [feature_count, feature_count] false
    else
      (undefinedTensor, none)

/-- `build_input_branch` (lines 107-137): `pool_count + 1` resolution levels,
each a `(conv, pool)` pair. -/
def build_input_branch (input : Tensor) (feature_base_count pool_count : Nat) :
    List (Tensor × Option Tensor) :=
  let res_levels := pool_count + 1
  (List.range res_levels).map (inputBranchLevel input feature_base_count res_levels)

/-- `build_common_part` (lines 140-171): asserts the two branches have the
same number of levels, then per level concatenates the two feature tensors
and applies `conv_conv_pool` with pooling disabled. -/
def build_common_part (branch_a_levels branch_b_levels : List (Tensor × Option Tensor))
    (feature_base_count : Nat) : Except BuildError (List Tensor) :=
  if branch_a_levels.length = branch_b_levels.length then
    .ok ((List.range branch_a_levels.length).map (fun level_index =>
      let concat_a_b := Tensor.concat2
        (branch_a_levels.getD level_index (undefinedTensor, none)).1
        (branch_b_levels.getD level_index (undefinedTensor, none)).1
      let feature_count := feature_base_count * 2 ^ level_index
      (conv_conv_pool concat_a_b [feature_count, feature_count] false).1))
  else
    .error (.shapeMismatch "The two branches do not have the same number of levels")

/-- The loop of `build_output_branch` (lines 180-196) after its first
iteration has set `prev_level_output` to the coarsest input level.  The
counter is the number of remaining iterations: with value `j + 1` the loop
body processes input level index `j`, appending its output after the outputs
of the finer levels (the source inserts at position 0 while iterating in
reverse order, which yields the same finest-first list). -/
def build_output_branch_aux (feature_base_count : Nat) (input_levels : List Tensor) :
    Tensor → Nat → List Tensor
  | _, 0 => []
  | prev_level_output, j + 1 =>
    let up := upsample_crop_concat prev_level_output
      (input_levels.getD j undefinedTensor)
    let feature_count := feature_base_count * 2 ^ j
    let final_conv := (conv_conv_pool up [feature_count, feature_count] false).1
    build_output_branch_aux feature_base_count input_levels final_conv j ++ [final_conv]

/-- `build_output_branch` (lines 174-198): walks the input pyramid from
coarsest to finest; the coarsest level initializes `prev_level_output` and
every finer level contributes one output. -/
def build_output_branch (input_levels : List Tensor) (feature_base_count : Nat) :
    List Tensor :=
  match input_levels.getLast? with
  | none => []
  | some bottom =>
    build_output_branch_aux feature_base_count input_levels bottom
      (input_levels.length - 1)

/-- `build_pred_branches` (lines 201-229): a 1×1 VALID convolution with the
final activation per level; level 0 fixes the canonical resolution, every
deeper level is upsampled by `2^level` and cropped to it; all levels are
stacked along a new axis 1.  `tf.stack` of an empty list is a framework
error. -/
def build_pred_branches (input_levels : List Tensor) (output_channels : Nat)
    (final_activation : Act) : Except BuildError (Option Tensor × Tensor) :=
  match input_levels with
  | [] => .error (.frameworkShapeError "tf.stack of an empty list of tensors")
  | input0 :: rest =>
    let pred0 := Tensor.conv2d input0 output_channels 1 .valid final_activation
    let level_0_resolution := ((shape pred0).getD 1 0, (shape pred0).getD 2 0)
    let deeper := rest.enum.map (fun p =>
      let level_index := p.1 + 1
      let pred := Tensor.conv2d p.2 output_channels 1 .valid final_activation
      let single_factor := 2 ^ level_index
      upsample_crop pred level_0_resolution (single_factor, single_factor))
    (.ok (some pred0, Tensor.stack1 pred0 deeper))

/-- The five results of `build_double_unet` (line 303). -/
structure DoubleUNet where
  level_0_disp_pred : Option Tensor
  stacked_disp_preds : Tensor
  level_0_seg_pred : Option Tensor
  stacked_seg_pred_logits : Option Tensor
  keep_prob : Tensor

/-- `build_double_unet` (lines 232-303): two encoder branches, the fused
common part, one or two decoder branches, and the prediction heads; the
dropout keep-probability placeholder is created first and returned last,
wired into nothing. -/
def build_double_unet (input_image input_poly_map : Tensor)
    (image_feature_base_count poly_map_feature_base_count
     common_feature_base_count pool_count disp_output_channels : Nat)
    (add_seg_output : Bool := true) (seg_output_channels : Nat := 1) :
    Except BuildError DoubleUNet :=
  let keep_prob := Tensor.placeholder "dropout_keep_prob"
  let branch_image_levels :=
    build_input_branch input_image image_feature_base_count pool_count
  let branch_poly_map_levels :=
    build_input_branch input_poly_map poly_map_feature_base_count pool_count
  match build_common_part branch_image_levels branch_poly_map_levels
      common_feature_base_count with
  | .error e => .error e
  | .ok common_part_levels =>
    let disp_levels := build_output_branch common_part_levels common_feature_base_count
    match build_pred_branches disp_levels disp_output_channels .tanh with
    | .error e => .error e
    | .ok (level_0_disp_pred, stacked_disp_preds) =>
      if add_seg_output then
        let seg_levels :=
          build_output_branch common_part_levels common_feature_base_count
        match build_pred_branches seg_levels seg_output_channels .ident with
        | .error e => .error e
        | .ok (level_0_seg_pred_logit, stacked_seg_pred_logits) =>
          .ok { level_0_disp_pred := level_0_disp_pred
                stacked_disp_preds := stacked_disp_preds
                level_0_seg_pred := level_0_seg_pred_logit.map Tensor.sigmoid
                stacked_seg_pred_logits := some stacked_seg_pred_logits
                keep_prob := keep_prob }
      else
        .ok { level_0_disp_pred := level_0_disp_pred
              stacked_disp_preds := stacked_disp_preds
              level_0_seg_pred := none
              stacked_seg_pred_logits := none
              keep_prob := keep_prob }

mutual

/-- Whether the placeholder named `s` occurs anywhere in a tensor expression:
a graph output depends on a placeholder exactly when the placeholder occurs
in its expression. -/
def hasPh (s : String) : Tensor → Bool
  | .input _ _ => false
  | .placeholder n => n == s
  | .conv2d t _ _ _ _ => hasPh s t
  | .maxPool2x2 t => hasPh s t
  | .resizeBilinear t _ _ => hasPh s t
  | .cropOrPad t _ _ => hasPh s t
  | .concat2 a b => hasPh s a || hasPh s b
  | .stack1 head tail => hasPh s head || hasPhList s tail
  | .sigmoid t => hasPh s t

/-- `hasPh` over every tensor of a list. -/
def hasPhList (s : String) : List Tensor → Bool
  | [] => false
  | t :: ts => hasPh s t || hasPhList s ts

end

/-! ### Helper lemmas -/

theorem getD_map_range {α : Type} (f : Nat → α) (n i : Nat) (d : α) (h : i < n) :
    (((List.range n).map f).getD i d) = f i := by
  rw [List.getD_eq_getElem?_getD, List.getElem?_map, List.getElem?_range h]
  rfl

theorem build_input_branch_getD (input : Tensor) (fbc P i : Nat) (h : i < P + 1) :
    (build_input_branch input fbc P).getD i (undefinedTensor, none)
      = inputBranchLevel input fbc (P + 1) i := by
  unfold build_input_branch
  exact getD_map_range _ _ _ _ h

theorem input_branch_last_pool_none (input : Tensor) (fbc P : Nat) (h : 1 ≤ P) :
    ((build_input_branch input fbc P).getD P (undefinedTensor, none)).2 = none := by
  obtain ⟨i, rfl⟩ : ∃ i, P = i + 1 := ⟨P - 1, (Nat.succ_pred_eq_of_pos h).symm⟩
  rw [build_input_branch_getD _ _ _ _ (Nat.lt_succ_self _)]
  simp [inputBranchLevel, conv_conv_pool]

theorem input_branch_pool_some (input : Tensor) (fbc P i : Nat) (h : i < P) :
    ((build_input_branch input fbc P).getD i (undefinedTensor, none)).2.isSome = true := by
  rw [build_input_branch_getD _ _ _ _ (by omega)]
  cases i with
  | zero => simp [inputBranchLevel, conv_conv_pool]
  | succ j =>
    simp [inputBranchLevel, h, conv_conv_pool]

theorem output_aux_length (fbc : Nat) (ls : List Tensor) :
    ∀ (n : Nat) (prev : Tensor), (build_output_branch_aux fbc ls prev n).length = n := by
  intro n
  induction n with
  | zero => intro prev; rfl
  | succ m ih => intro prev; simp [build_output_branch_aux, ih]

theorem build_output_branch_length (ls : List Tensor) (fbc : Nat) :
    (build_output_branch ls fbc).length = ls.length - 1 := by
  unfold build_output_branch
  cases h : ls.getLast? with
  | none =>
    have : ls = [] := List.getLast?_eq_none_iff.mp h
    subst this
    rfl
  | some bottom => exact output_aux_length fbc ls _ bottom

theorem output_aux_getD (fbc : Nat) (ls : List Tensor) :
    ∀ (n : Nat) (prev : Tensor) (j : Nat), j < n →
      ∃ p, (build_output_branch_aux fbc ls prev n).getD j undefinedTensor
        = (conv_conv_pool (upsample_crop_concat p (ls.getD j undefinedTensor))
            [fbc * 2 ^ j, fbc * 2 ^ j] false).1 := by
  intro n
  induction n with
  | zero => intro prev j hj; omega
  | succ m ih =>
    intro prev j hj
    rw [build_output_branch_aux]
    by_cases hjm : j < m
    · rw [List.getD_eq_getElem?_getD,
        List.getElem?_append_left (by rw [output_aux_length]; exact hjm),
        ← List.getD_eq_getElem?_getD]
      exact ih _ j hjm
    · have hj' : j = m := by omega
      subst hj'
      rw [List.getD_eq_getElem?_getD,
        List.getElem?_append_right (by rw [output_aux_length]),
        output_aux_length]
      exact ⟨prev, by simp⟩

theorem conv_conv_pool_fst_sizeOf_lt (t x : Tensor) (a b : Nat) :
    sizeOf t < sizeOf (conv_conv_pool (upsample_crop_concat t x) [a, b] false).1 := by
  simp [conv_conv_pool, upsample_crop_concat, complete_conv2d]
  omega

theorem output_aux_sizeOf_lt (fbc : Nat) (ls : List Tensor) :
    ∀ (n : Nat) (prev : Tensor), ∀ t ∈ build_output_branch_aux fbc ls prev n,
      sizeOf prev < sizeOf t := by
  intro n
  induction n with
  | zero => intro prev t ht; simp [build_output_branch_aux] at ht
  | succ m ih =>
    intro prev t ht
    rw [build_output_branch_aux] at ht
    rcases List.mem_append.mp ht with h | h
    · exact lt_trans (conv_conv_pool_fst_sizeOf_lt _ _ _ _) (ih _ t h)
    · rw [List.mem_singleton.mp h]
      exact conv_conv_pool_fst_sizeOf_lt _ _ _ _

theorem shape_concat2 {a : Tensor} (b : Tensor) {n h w c : Nat}
    (ha : shape a = [n, h, w, c]) :
    shape (Tensor.concat2 a b) = [n, h, w, c + (shape b).getD 3 0] := by
  simp [shape, ha]

theorem shape_conv_conv_pool2_fst {t : Tensor} {n h w c : Nat}
    (ht : shape t = [n, h, w, c]) (f1 f2 : Nat) (p : Bool) (act : Act) :
    shape (conv_conv_pool t [f1, f2] p act).1 = [n, h - 2 - 2, w - 2 - 2, f2] := by
  cases p <;> simp [conv_conv_pool, complete_conv2d, shape, ht]

theorem shape_conv1x1 {t : Tensor} {n h w c : Nat} (ht : shape t = [n, h, w, c])
    (oc : Nat) (act : Act) :
    shape (Tensor.conv2d t oc 1 .valid act) = [n, h, w, oc] := by
  simp [shape, ht]

theorem shape_upsample_crop {t : Tensor} {n h w c : Nat} (ht : shape t = [n, h, w, c])
    (res fac : Nat × Nat) :
    shape (upsample_crop t res fac) = [n, res.1, res.2, c] := by
  simp [upsample_crop, shape, ht]

theorem hasPh_undefined (s : String) : hasPh s undefinedTensor = false := by
  simp [hasPh, undefinedTensor]

theorem hasPh_foldl_conv (s : String) (act : Act) :
    ∀ (fs : List Nat) (t : Tensor),
      hasPh s (fs.foldl (fun net F => complete_conv2d net F 3 .valid act) t)
        = hasPh s t := by
  intro fs
  induction fs with
  | nil => intro t; rfl
  | cons F fs ih =>
    intro t
    rw [List.foldl_cons, ih]
    simp [complete_conv2d, hasPh]

theorem hasPh_conv_conv_pool_fst (s : String) (t : Tensor) (fs : List Nat)
    (p : Bool) (act : Act) :
    hasPh s (conv_conv_pool t fs p act).1 = hasPh s t := by
  cases p <;> simp [conv_conv_pool, hasPh_foldl_conv]

theorem hasPh_conv_conv_pool_pair (s : String) (t : Tensor) (fs : List Nat)
    (p : Bool) (act : Act) (ht : hasPh s t = false) :
    hasPh s (conv_conv_pool t fs p act).1 = false
      ∧ ∀ u, (conv_conv_pool t fs p act).2 = some u → hasPh s u = false := by
  refine ⟨by rw [hasPh_conv_conv_pool_fst]; exact ht, ?_⟩
  intro u hu
  cases p with
  | false => simp [conv_conv_pool] at hu
  | true =>
    simp only [conv_conv_pool] at hu
    rw [if_neg (by simp)] at hu
    have : u = Tensor.maxPool2x2
        (fs.foldl (fun net F => complete_conv2d net F 3 .valid act) t) := by
      exact (Option.some.injEq _ _ ▸ hu).symm
    rw [this]
    simp [hasPh, hasPh_foldl_conv, ht]

theorem hasPh_inputBranchLevel (s : String) (input : Tensor) (fbc rl : Nat)
    (hin : hasPh s input = false) :
    ∀ i, hasPh s (inputBranchLevel input fbc rl i).1 = false
      ∧ ∀ u, (inputBranchLevel input fbc rl i).2 = some u → hasPh s u = false := by
  intro i
  induction i with
  | zero =>
    rw [inputBranchLevel]
    exact hasPh_conv_conv_pool_pair s input _ true .elu hin
  | succ i ih =>
    have hli : hasPh s ((inputBranchLevel input fbc rl i).2.getD undefinedTensor)
        = false := by
      cases h2 : (inputBranchLevel input fbc rl i).2 with
      | none => exact hasPh_undefined s
      | some u => simpa using ih.2 u h2
    rw [inputBranchLevel]
    by_cases h1 : i + 1 < rl - 1
    · simp only [if_pos h1]
      exact hasPh_conv_conv_pool_pair s _ _ true .elu hli
    · by_cases h2 : i + 1 = rl - 1
      · simp only [if_neg h1, if_pos h2]
        exact hasPh_conv_conv_pool_pair s _ _ false .elu hli
      · simp only [if_neg h1, if_neg h2]
        exact ⟨hasPh_undefined s, by intro u hu; simp at hu⟩

theorem hasPh_build_input_branch (s : String) (input : Tensor) (fbc P : Nat)
    (hin : hasPh s input = false) :
    ∀ p ∈ build_input_branch input fbc P,
      hasPh s p.1 = false ∧ ∀ u, p.2 = some u → hasPh s u = false := by
  intro p hp
  unfold build_input_branch at hp
  rcases List.mem_map.mp hp with ⟨i, _, rfl⟩
  exact hasPh_inputBranchLevel s input fbc _ hin i

theorem hasPh_getD_pair (s : String) (l : List (Tensor × Option Tensor)) (i : Nat)
    (hall : ∀ p ∈ l, hasPh s p.1 = false) :
    hasPh s ((l.getD i (undefinedTensor, none)).1) = false := by
  rcases Nat.lt_or_ge i l.length with h | h
  · rw [List.getD_eq_getElem?_getD, List.getElem?_eq_getElem h]
    exact hall _ (List.getElem_mem h)
  · rw [List.getD_eq_getElem?_getD, List.getElem?_eq_none h]
    exact hasPh_undefined s

theorem hasPh_getD_tensor (s : String) (l : List Tensor) (i : Nat)
    (hall : ∀ t ∈ l, hasPh s t = false) :
    hasPh s (l.getD i undefinedTensor) = false := by
  rcases Nat.lt_or_ge i l.length with h | h
  · rw [List.getD_eq_getElem?_getD, List.getElem?_eq_getElem h]
    exact hall _ (List.getElem_mem h)
  · rw [List.getD_eq_getElem?_getD, List.getElem?_eq_none h]
    exact hasPh_undefined s

theorem hasPh_build_common_part (s : String)
    (a b : List (Tensor × Option Tensor)) (fbc : Nat) (ls : List Tensor)
    (hok : build_common_part a b fbc = .ok ls)
    (ha : ∀ p ∈ a, hasPh s p.1 = false) (hb : ∀ p ∈ b, hasPh s p.1 = false) :
    ∀ t ∈ ls, hasPh s t = false := by
  unfold build_common_part at hok
  by_cases hlen : a.length = b.length
  · rw [if_pos hlen] at hok
    rw [Except.ok.injEq] at hok
    subst hok
    intro t ht
    rcases List.mem_map.mp ht with ⟨i, _, rfl⟩
    rw [hasPh_conv_conv_pool_fst]
    simp only [hasPh, Bool.or_eq_false_iff]
    exact ⟨hasPh_getD_pair s a i ha, hasPh_getD_pair s b i hb⟩
  · rw [if_neg hlen] at hok
    simp at hok

theorem hasPh_upsample_crop_concat (s : String) (a b : Tensor) (sz : Nat × Nat) :
    hasPh s (upsample_crop_concat a b sz) = (hasPh s a || hasPh s b) := by
  simp [upsample_crop_concat, complete_conv2d, hasPh]

theorem hasPh_output_aux (s : String) (fbc : Nat) (ls : List Tensor)
    (hls : ∀ t ∈ ls, hasPh s t = false) :
    ∀ (n : Nat) (prev : Tensor), hasPh s prev = false →
      ∀ t ∈ build_output_branch_aux fbc ls prev n, hasPh s t = false := by
  intro n
  induction n with
  | zero => intro prev _ t ht; simp [build_output_branch_aux] at ht
  | succ m ih =>
    intro prev hprev t ht
    rw [build_output_branch_aux] at ht
    have hfinal : hasPh s (conv_conv_pool
        (upsample_crop_concat prev (ls.getD m undefinedTensor))
        [fbc * 2 ^ m, fbc * 2 ^ m] false .elu).1 = false := by
      rw [hasPh_conv_conv_pool_fst, hasPh_upsample_crop_concat, hprev,
        hasPh_getD_tensor s ls m hls]
      rfl
    rcases List.mem_append.mp ht with h | h
    · exact ih _ hfinal t h
    · rw [List.mem_singleton.mp h]
      exact hfinal

theorem hasPh_build_output_branch (s : String) (ls : List Tensor) (fbc : Nat)
    (hls : ∀ t ∈ ls, hasPh s t = false) :
    ∀ t ∈ build_output_branch ls fbc, hasPh s t = false := by
  intro t ht
  unfold build_output_branch at ht
  cases h : ls.getLast? with
  | none => rw [h] at ht; simp at ht
  | some bottom =>
    rw [h] at ht
    exact hasPh_output_aux s fbc ls hls _ bottom
      (hls bottom (List.mem_of_getLast?_eq_some h)) t ht

theorem hasPh_upsample_crop (s : String) (t : Tensor) (res fac : Nat × Nat) :
    hasPh s (upsample_crop t res fac) = hasPh s t := by
  simp [upsample_crop, hasPh]

theorem hasPhList_eq_false (s : String) (ts : List Tensor)
    (h : ∀ t ∈ ts, hasPh s t = false) : hasPhList s ts = false := by
  induction ts with
  | nil => simp [hasPhList]
  | cons t ts ih =>
    simp only [hasPhList, Bool.or_eq_false_iff]
    exact ⟨h t (by simp), ih (fun x hx => h x (by simp [hx]))⟩

theorem hasPh_build_pred_branches (s : String) (ls : List Tensor) (oc : Nat)
    (act : Act) (o : Option Tensor) (st : Tensor)
    (hok : build_pred_branches ls oc act = .ok (o, st))
    (hls : ∀ t ∈ ls, hasPh s t = false) :
    (∀ u, o = some u → hasPh s u = false) ∧ hasPh s st = false := by
  cases ls with
  | nil => simp [build_pred_branches] at hok
  | cons i0 rest =>
    simp only [build_pred_branches, Except.ok.injEq, Prod.mk.injEq] at hok
    obtain ⟨ho, hst⟩ := hok
    have h0 : hasPh s (Tensor.conv2d i0 oc 1 .valid act) = false := by
      simpa [hasPh] using hls i0 (by simp)
    have hdeeper : ∀ t ∈ rest.enum.map (fun p =>
        upsample_crop (Tensor.conv2d p.2 oc 1 .valid act)
          ((shape (Tensor.conv2d i0 oc 1 .valid act)).getD 1 0,
           (shape (Tensor.conv2d i0 oc 1 .valid act)).getD 2 0)
          (2 ^ (p.1 + 1), 2 ^ (p.1 + 1))), hasPh s t = false := by
      intro t ht
      rcases List.mem_map.mp ht with ⟨q, hq, rfl⟩
      rw [hasPh_upsample_crop]
      simpa [hasPh] using
        hls q.2 (List.mem_cons_of_mem i0 (List.snd_mem_of_mem_enum hq))
    constructor
    · intro u hu
      rw [← ho] at hu
      exact Option.some.inj hu ▸ h0
    · rw [← hst]
      simp only [hasPh, Bool.or_eq_false_iff]
      exact ⟨h0, hasPhList_eq_false s _ hdeeper⟩

theorem build_common_part_ok (a b : List (Tensor × Option Tensor)) (fbc : Nat)
    (hlen : a.length = b.length) :
    build_common_part a b fbc = .ok ((List.range a.length).map
      (fun level_index =>
        (conv_conv_pool (Tensor.concat2
            (a.getD level_index (undefinedTensor, none)).1
            (b.getD level_index (undefinedTensor, none)).1)
          [fbc * 2 ^ level_index, fbc * 2 ^ level_index] false).1)) := by
  unfold build_common_part
  rw [if_pos hlen]

/-! ### Claim theorems -/

/-- C1: for every pooling count `P ≥ 0`, `build_input_branch` applied to an
input tensor and a base feature count returns a list of exactly `P + 1`
`(features, pooled)` level pairs. -/
theorem input_branch_level_count (input : Tensor) (feature_base_count P : Nat) :
    (build_input_branch input feature_base_count P).length = P + 1 := by
  simp [build_input_branch]

/-- C2 (counterexample): at pooling count `P = 0` the last level (index 0) is
built by the `res_level_index == 0` branch of `build_input_branch`, which
pools: its pooled component is a max-pool tensor, not `none`. -/
theorem input_branch_last_level_pools_at_zero :
    (((build_input_branch (.input "image" [1, 256, 256, 3]) 8 0).getD 0
      (undefinedTensor, none)).2).isSome = true := by
  rfl

/-- C2 (amended): for every pooling count `P ≥ 1`, the last level (index `P`)
returned by `build_input_branch` has pooled component `none`: it is built by
`conv_conv_pool` with pooling disabled. (At `P = 0` the single level is built
by the level-0 branch, which pools.) -/
theorem input_branch_last_level_no_pool (input : Tensor)
    (feature_base_count P : Nat) (hP : 1 ≤ P) :
    ((build_input_branch input feature_base_count P).getD P
      (undefinedTensor, none)).2 = none :=
  input_branch_last_pool_none input feature_base_count P hP

/-- C2 (witness): the amended statement at `P = 2`. -/
theorem input_branch_last_level_no_pool_witness :
    ((build_input_branch (.input "image" [1, 256, 256, 3]) 8 2).getD 2
      (undefinedTensor, none)).2 = none :=
  input_branch_last_level_no_pool (.input "image" [1, 256, 256, 3]) 8 2
    (by decide)

/-- C10: for every pooling count `P ≥ 1`, `build_input_branch` returns a
non-`none` pooled component at every level index strictly below `P` and a
`none` pooled component at the last level (index `P`). -/
theorem input_branch_pool_pattern (input : Tensor)
    (feature_base_count P : Nat) (hP : 1 ≤ P) :
    (∀ i, i < P →
      ((build_input_branch input feature_base_count P).getD i
        (undefinedTensor, none)).2.isSome = true)
    ∧ ((build_input_branch input feature_base_count P).getD P
        (undefinedTensor, none)).2 = none :=
  ⟨fun i hi => input_branch_pool_some input feature_base_count P i hi,
   input_branch_last_pool_none input feature_base_count P hP⟩

/-- C10 (witness): the pattern at `P = 2`, instantiated at every index. -/
theorem input_branch_pool_pattern_witness :
    (((build_input_branch (.input "im" [1, 64, 64, 3]) 4 2).getD 0
        (undefinedTensor, none)).2.isSome = true)
    ∧ (((build_input_branch (.input "im" [1, 64, 64, 3]) 4 2).getD 1
        (undefinedTensor, none)).2.isSome = true)
    ∧ (((build_input_branch (.input "im" [1, 64, 64, 3]) 4 2).getD 2
        (undefinedTensor, none)).2 = none) :=
  ⟨(input_branch_pool_pattern (.input "im" [1, 64, 64, 3]) 4 2 (by decide)).1
      0 (by decide),
   (input_branch_pool_pattern (.input "im" [1, 64, 64, 3]) 4 2 (by decide)).1
      1 (by decide),
   (input_branch_pool_pattern (.input "im" [1, 64, 64, 3]) 4 2 (by decide)).2⟩

/-- C8: calling `conv_conv_pool` with an empty channel-count list applies no
convolution: the input tensor is returned unchanged as the features output,
for either value of the pooling flag. -/
theorem conv_conv_pool_nil_filters_passthrough (input : Tensor) (pool : Bool)
    (act : Act) :
    (conv_conv_pool input [] pool act).1 = input := by
  cases pool <;> rfl

/-- C5: `build_common_part` requires its two input pyramids to have equal
length; for equal depths it returns one fused tensor per level (output length
equals input length), and for mismatched depths it fails with a
`shapeMismatch` error that aborts graph construction. -/
theorem common_part_length_spec (a b : List (Tensor × Option Tensor))
    (fbc : Nat) :
    (a.length = b.length →
      ∃ ls, build_common_part a b fbc = .ok ls ∧ ls.length = a.length)
    ∧ (a.length ≠ b.length →
      build_common_part a b fbc = .error (.shapeMismatch
        "The two branches do not have the same number of levels")) := by
  constructor
  · intro hlen
    exact ⟨_, build_common_part_ok a b fbc hlen, by simp⟩
  · intro hlen
    unfold build_common_part
    rw [if_neg hlen]

/-- C5 (witness): both arms at concrete pyramids of depth 1 resp. 1 vs 0. -/
theorem common_part_length_spec_witness :
    (∃ ls, build_common_part [((Tensor.input "a" [1, 8, 8, 4]), none)]
        [((Tensor.input "b" [1, 8, 8, 2]), none)] 4 = .ok ls ∧ ls.length = 1)
    ∧ build_common_part [((Tensor.input "a" [1, 8, 8, 4]), none)] [] 4
        = .error (.shapeMismatch
          "The two branches do not have the same number of levels") :=
  ⟨(common_part_length_spec [((Tensor.input "a" [1, 8, 8, 4]), none)]
      [((Tensor.input "b" [1, 8, 8, 2]), none)] 4).1 rfl,
   (common_part_length_spec [((Tensor.input "a" [1, 8, 8, 4]), none)] [] 4).2
      (by decide)⟩

/-- C6 (counterexample): for two concrete single-level pyramids and
`common_feature_base_count = 8`, the fused level-0 tensor has 8 channels
(`8 * 2^0`), not `2 * 8 * 2^0 = 16`: the ConvBlock after the concatenation
projects the doubled channels back down to `feature_count`. -/
theorem common_part_channels_cex :
    ((build_common_part (build_input_branch (.input "a" [1, 16, 16, 3]) 8 0)
        (build_input_branch (.input "b" [1, 16, 16, 1]) 8 0) 8).toOption.map
      (fun ls => (shape (ls.getD 0 undefinedTensor)).getD 3 0)) = some 8
    ∧ (8 : Nat) ≠ 2 * 8 * 2 ^ 0 :=
  ⟨rfl, by decide⟩

/-- C6 (amended): the channel count of the fused tensor returned by
`build_common_part` at level `i` equals `common_feature_base_count * 2^i`
(the concatenation doubles the incoming channels, but the following ConvBlock
projects them to `feature_count = feature_base_count * 2^i`). -/
theorem common_part_channels_eq (a b : List (Tensor × Option Tensor))
    (fbc i : Nat) (hlen : a.length = b.length) (hi : i < a.length)
    (n h w c : Nat)
    (hshape : shape (a.getD i (undefinedTensor, none)).1 = [n, h, w, c]) :
    ∃ ls, build_common_part a b fbc = .ok ls
      ∧ (shape (ls.getD i undefinedTensor)).getD 3 0 = fbc * 2 ^ i := by
  refine ⟨_, build_common_part_ok a b fbc hlen, ?_⟩
  simp only [getD_map_range _ _ _ _ hi]
  rw [shape_conv_conv_pool2_fst (shape_concat2 _ hshape)]
  rfl

/-- C6 (witness): the amended statement at two concrete depth-2 pyramids,
level 1. -/
theorem common_part_channels_eq_witness :
    ∃ ls, build_common_part (build_input_branch (.input "a" [1, 16, 16, 3]) 4 1)
        (build_input_branch (.input "b" [1, 16, 16, 1]) 8 1) 8 = .ok ls
      ∧ (shape (ls.getD 1 undefinedTensor)).getD 3 0 = 8 * 2 ^ 1 :=
  common_part_channels_eq (build_input_branch (.input "a" [1, 16, 16, 3]) 4 1)
    (build_input_branch (.input "b" [1, 16, 16, 1]) 8 1) 8 1
    (by decide) (by decide) 1 2 2 8 (by decide)

theorem getD_mem_of_lt (l : List Tensor) (i : Nat) (h : i < l.length) :
    l.getD i undefinedTensor ∈ l := by
  rw [List.getD_eq_getElem?_getD, List.getElem?_eq_getElem h]
  exact List.getElem_mem h

/-- C3: applied to a pyramid of depth `D`, `build_output_branch` returns
exactly `D - 1` decoder outputs, ordered finest first: the output at index
`j` merges (through `upsample_crop_concat`) with fused level `j` and carries
the level-`j` feature count, and the coarsest fused level serves only as the
starting point, never appearing among the outputs. -/
theorem output_branch_levels_spec (input_levels : List Tensor) (fbc : Nat) :
    (build_output_branch input_levels fbc).length = input_levels.length - 1
    ∧ (∀ j, j < input_levels.length - 1 → ∃ p,
        (build_output_branch input_levels fbc).getD j undefinedTensor
          = (conv_conv_pool (upsample_crop_concat p
              (input_levels.getD j undefinedTensor))
              [fbc * 2 ^ j, fbc * 2 ^ j] false).1)
    ∧ (∀ h : input_levels ≠ [], ∀ t ∈ build_output_branch input_levels fbc,
        input_levels.getLast h ≠ t) := by
  refine ⟨build_output_branch_length input_levels fbc, ?_, ?_⟩
  · intro j hj
    unfold build_output_branch
    cases hlast : input_levels.getLast? with
    | none =>
      exfalso
      rw [List.getLast?_eq_none_iff.mp hlast] at hj
      simp at hj
    | some bottom => exact output_aux_getD fbc input_levels _ bottom j hj
  · intro hne t ht heq
    unfold build_output_branch at ht
    cases hlast : input_levels.getLast? with
    | none => rw [hlast] at ht; simp at ht
    | some bottom =>
      rw [hlast] at ht
      have hbot : input_levels.getLast hne = bottom := by
        have h' := List.getLast?_eq_getLast input_levels hne
        rw [hlast] at h'
        exact (Option.some.inj h').symm
      have hlt := output_aux_sizeOf_lt fbc input_levels _ bottom t ht
      rw [← heq, hbot] at hlt
      exact absurd hlt (lt_irrefl _)

/-- C3 (witness): a concrete depth-2 pyramid: one output, merged with fused
level 0, different from the coarsest input level. -/
theorem output_branch_levels_spec_witness :
    (build_output_branch [Tensor.input "f0" [1, 32, 32, 4],
        Tensor.input "f1" [1, 12, 12, 8]] 4).length
      = [Tensor.input "f0" [1, 32, 32, 4],
          Tensor.input "f1" [1, 12, 12, 8]].length - 1
    ∧ (∃ p, (build_output_branch [Tensor.input "f0" [1, 32, 32, 4],
          Tensor.input "f1" [1, 12, 12, 8]] 4).getD 0 undefinedTensor
        = (conv_conv_pool (upsample_crop_concat p
            ([Tensor.input "f0" [1, 32, 32, 4],
              Tensor.input "f1" [1, 12, 12, 8]].getD 0 undefinedTensor))
            [4 * 2 ^ 0, 4 * 2 ^ 0] false).1)
    ∧ ([Tensor.input "f0" [1, 32, 32, 4],
          Tensor.input "f1" [1, 12, 12, 8]].getLast (List.cons_ne_nil _ _)
        ≠ (build_output_branch [Tensor.input "f0" [1, 32, 32, 4],
            Tensor.input "f1" [1, 12, 12, 8]] 4).getD 0 undefinedTensor) := by
  have h := output_branch_levels_spec
    [Tensor.input "f0" [1, 32, 32, 4], Tensor.input "f1" [1, 12, 12, 8]] 4
  refine ⟨h.1, h.2.1 0 (by decide), ?_⟩
  apply h.2.2 (List.cons_ne_nil _ _)
  exact getD_mem_of_lt _ 0 (by rw [h.1]; decide)

/-- C7: for every non-empty list of (4-D well-formed) decoder levels,
`build_pred_branches` succeeds; the level axis of its stacked output has
length equal to the number of input decoder levels, and every stacked level
prediction has the spatial resolution of the level-0 prediction (deeper
levels being upsampled by `2^level` and cropped/padded to it). -/
theorem pred_branches_resolution (input_levels : List Tensor) (oc : Nat)
    (act : Act) (hne : input_levels ≠ [])
    (h4 : ∀ t ∈ input_levels, ∃ n h w c, shape t = [n, h, w, c]) :
    ∃ p0 tail,
      build_pred_branches input_levels oc act = .ok (some p0, .stack1 p0 tail)
      ∧ tail.length + 1 = input_levels.length
      ∧ (shape (Tensor.stack1 p0 tail)).getD 1 0 = input_levels.length
      ∧ ∀ t ∈ tail, (shape t).getD 1 0 = (shape p0).getD 1 0
          ∧ (shape t).getD 2 0 = (shape p0).getD 2 0 := by
  cases input_levels with
  | nil => exact absurd rfl hne
  | cons i0 rest =>
    obtain ⟨n0, h0, w0, c0, hs0⟩ := h4 i0 (by simp)
    have hp0 : shape (Tensor.conv2d i0 oc 1 .valid act) = [n0, h0, w0, oc] :=
      shape_conv1x1 hs0 oc act
    refine ⟨Tensor.conv2d i0 oc 1 .valid act, _, rfl, by simp, ?_, ?_⟩
    · simp [shape, stackAxis1, hs0]
    · intro t ht
      rcases List.mem_map.mp ht with ⟨q, hq, rfl⟩
      dsimp only
      obtain ⟨n1, h1, w1, c1, hs1⟩ :=
        h4 q.2 (List.mem_cons_of_mem _ (List.snd_mem_of_mem_enum hq))
      have hpred : shape (Tensor.conv2d q.2 oc 1 .valid act)
          = [n1, h1, w1, oc] := shape_conv1x1 hs1 oc act
      rw [shape_upsample_crop hpred]
      simp [hp0]

/-- C7 (witness): two concrete decoder levels: the stack has level-axis
length 2 and both stacked predictions share level 0's spatial resolution. -/
theorem pred_branches_resolution_witness :
    ∃ p0 tail,
      build_pred_branches [Tensor.input "d0" [1, 8, 8, 4],
          Tensor.input "d1" [1, 3, 3, 8]] 2 .tanh
        = .ok (some p0, .stack1 p0 tail)
      ∧ tail.length + 1 = [Tensor.input "d0" [1, 8, 8, 4],
          Tensor.input "d1" [1, 3, 3, 8]].length
      ∧ (shape (Tensor.stack1 p0 tail)).getD 1 0
          = [Tensor.input "d0" [1, 8, 8, 4],
              Tensor.input "d1" [1, 3, 3, 8]].length
      ∧ ∀ t ∈ tail, (shape t).getD 1 0 = (shape p0).getD 1 0
          ∧ (shape t).getD 2 0 = (shape p0).getD 2 0 :=
  pred_branches_resolution
    [Tensor.input "d0" [1, 8, 8, 4], Tensor.input "d1" [1, 3, 3, 8]] 2 .tanh
    (List.cons_ne_nil _ _)
    (by
      intro t ht
      simp only [List.mem_cons, List.not_mem_nil, or_false] at ht
      rcases ht with rfl | rfl
      · exact ⟨1, 8, 8, 4, rfl⟩
      · exact ⟨1, 3, 3, 8, rfl⟩)

/-- C4 (counterexample): in the end-to-end scenario (image `(1,256,256,3)`,
poly map `(1,256,256,1)`, base counts 8, `pool_count = 2`,
`disp_output_channels = 2`), the stacked displacement prediction has shape
`(1, 2, 200, 200, 2)`: its level axis has length 2 (= `pool_count`), not 3
(the 3-level pyramid yields only 2 decoder outputs). -/
theorem double_unet_stacked_axis_cex :
    ((build_double_unet (.input "image" [1, 256, 256, 3])
        (.input "poly_map" [1, 256, 256, 1]) 8 8 8 2 2 true 1).toOption.map
      (fun out => shape out.stacked_disp_preds)) = some [1, 2, 200, 200, 2]
    ∧ [1, 2, 200, 200, 2] ≠ [1, 3, 200, 200, 2] :=
  ⟨rfl, by decide⟩

/-- C4 (amended): in the end-to-end scenario with pooling count 2, for every
displacement output channel count `d` the assembler returns a level-0
displacement prediction of shape `(1, 200, 200, d)` (the spatial extent fixed
by the non-padded convolution shrinkage at level 0) and a stacked
displacement prediction of shape `(1, 2, 200, 200, d)`, whose level axis has
length 2, one per decoder output. -/
theorem double_unet_end_to_end_shapes (disp_output_channels : Nat) :
    ((build_double_unet (.input "image" [1, 256, 256, 3])
        (.input "poly_map" [1, 256, 256, 1]) 8 8 8 2 disp_output_channels
        true 1).toOption.map
      (fun out => (out.level_0_disp_pred.map shape,
        shape out.stacked_disp_preds)))
    = some (some [1, 200, 200, disp_output_channels],
        [1, 2, 200, 200, disp_output_channels]) := rfl

/-- C9: the dropout keep-probability placeholder created by
`build_double_unet` is returned but never wired into any layer: whenever
graph construction succeeds and the placeholder does not already occur in
the two input tensors, it occurs in none of the four prediction outputs
(level-0 displacement, stacked displacement, level-0 segmentation, stacked
segmentation logits) — so the outputs are constructed identically whatever
value is later fed for `keep_prob`. -/
theorem keep_prob_not_wired (input_image input_poly_map : Tensor)
    (ifbc pfbc cfbc pool_count doc : Nat) (aso : Bool) (soc : Nat)
    (himg : hasPh "dropout_keep_prob" input_image = false)
    (hpoly : hasPh "dropout_keep_prob" input_poly_map = false) :
    ∀ out, build_double_unet input_image input_poly_map ifbc pfbc cfbc
        pool_count doc aso soc = .ok out →
      out.keep_prob = .placeholder "dropout_keep_prob"
      ∧ (∀ t, out.level_0_disp_pred = some t →
          hasPh "dropout_keep_prob" t = false)
      ∧ hasPh "dropout_keep_prob" out.stacked_disp_preds = false
      ∧ (∀ t, out.level_0_seg_pred = some t →
          hasPh "dropout_keep_prob" t = false)
      ∧ (∀ t, out.stacked_seg_pred_logits = some t →
          hasPh "dropout_keep_prob" t = false) := by
  intro out hout
  simp only [build_double_unet] at hout
  cases hcp : build_common_part (build_input_branch input_image ifbc pool_count)
      (build_input_branch input_poly_map pfbc pool_count) cfbc with
  | error e => rw [hcp] at hout; simp at hout
  | ok common_part_levels =>
    rw [hcp] at hout
    dsimp only at hout
    have hcommon : ∀ t ∈ common_part_levels,
        hasPh "dropout_keep_prob" t = false :=
      hasPh_build_common_part _ _ _ cfbc _ hcp
        (fun p hp =>
          (hasPh_build_input_branch _ input_image ifbc pool_count himg p hp).1)
        (fun p hp =>
          (hasPh_build_input_branch _ input_poly_map pfbc pool_count hpoly p hp).1)
    have hdisp : ∀ t ∈ build_output_branch common_part_levels cfbc,
        hasPh "dropout_keep_prob" t = false :=
      hasPh_build_output_branch _ _ cfbc hcommon
    cases hpb : build_pred_branches
        (build_output_branch common_part_levels cfbc) doc .tanh with
    | error e => rw [hpb] at hout; simp at hout
    | ok pr =>
      obtain ⟨o, st⟩ := pr
      rw [hpb] at hout
      dsimp only at hout
      have hpred := hasPh_build_pred_branches _ _ doc .tanh o st hpb hdisp
      cases aso with
      | false =>
        rw [if_neg Bool.false_ne_true, Except.ok.injEq] at hout
        subst hout
        exact ⟨rfl, hpred.1, hpred.2,
          by intro t ht; simp at ht, by intro t ht; simp at ht⟩
      | true =>
        rw [if_pos rfl] at hout
        cases hsb : build_pred_branches
            (build_output_branch common_part_levels cfbc) soc .ident with
        | error e => rw [hsb] at hout; simp at hout
        | ok pr2 =>
          obtain ⟨o2, st2⟩ := pr2
          rw [hsb] at hout
          dsimp only at hout
          have hpred2 :=
            hasPh_build_pred_branches _ _ soc .ident o2 st2 hsb hdisp
          rw [Except.ok.injEq] at hout
          subst hout
          refine ⟨rfl, hpred.1, hpred.2, ?_, ?_⟩
          · intro t ht
            simp only at ht
            rcases Option.map_eq_some'.mp ht with ⟨u, hu, rfl⟩
            have := hpred2.1 u hu
            simpa [hasPh] using this
          · intro t ht
            simp only at ht
            rw [← Option.some.inj ht]
            exact hpred2.2

/-- C9 (witness): a concrete successful configuration in which the stacked
displacement output does not contain the keep-probability placeholder. -/
theorem keep_prob_not_wired_witness :
    ((build_double_unet (.input "image" [1, 64, 64, 3])
        (.input "poly_map" [1, 64, 64, 1]) 4 4 4 1 2 true 1).toOption.map
      (fun out => hasPh "dropout_keep_prob" out.stacked_disp_preds))
    = some false := by
  obtain ⟨out, hout⟩ : ∃ out, build_double_unet (.input "image" [1, 64, 64, 3])
      (.input "poly_map" [1, 64, 64, 1]) 4 4 4 1 2 true 1 = .ok out :=
    ⟨_, rfl⟩
  have h := keep_prob_not_wired (.input "image" [1, 64, 64, 3])
    (.input "poly_map" [1, 64, 64, 1]) 4 4 4 1 2 true 1
    (by simp [hasPh]) (by simp [hasPh]) out hout
  rw [hout]
  simp only [Except.toOption, Option.map]
  rw [h.2.2.1]

end ModelUtils
